import Mathlib

/-!
# Verification of the mcp-go-indexer indexing and retrieval pipeline

Shallow embedding of `cmd/mcp-go-indexer/main.go`:

* the directory-walk filters of `handleIndexProject` (hidden / vendor /
  node_modules pruning, `.go` extension filtering),
* the per-file / per-chunk processing loop with its failure accounting,
* the deterministic point identity `uuid.NewSHA1(ns, path + ":" + funcName)`
  (the SHA1-based UUID itself is kept abstract as a `hash` parameter; what the
  source fixes is the pre-hash key string),
* the Ollama embedding client `getOllamaEmbedding`,
* the `codebase_search` handler's result rendering.

External effects (file reads, tree-sitter parsing, HTTP calls, Qdrant calls)
are modelled as explicit environment functions; paths are lists of name
components (root component first).  Floating-point similarity scores are
modelled as integer thousandths, since the rendering only ever formats them
with three decimal places; the float64 → float32 narrowing of embedding
components is modelled by an arbitrary conversion function between the two
component types.
-/

namespace McpGoIndexer

/-- A path is the list of its components, root name first. -/
abbrev Path := List String

/-- `strings.HasPrefix(name, ".")`: a name starts with the hidden-file
marker exactly when its first character is `'.'` (the marker is the
one-byte ASCII string `"."`, so byte- and character-level prefix agree). -/
def hasDotPrefix (name : String) : Bool :=
  name.data.take 1 == ['.']

/-- `strings.HasPrefix(d.Name(), ".") || d.Name() == "node_modules" || d.Name() == "vendor"`
(main.go:275): directory names that the walk prunes with `filepath.SkipDir`. -/
def prunedDir (name : String) : Bool :=
  hasDotPrefix name || name == "node_modules" || name == "vendor"

/-- The scan of Go's `filepath.Ext`: walk the path backwards; a path
separator ends the scan with no extension, the first `.` found returns the
suffix from it.  `revPath` is the reversed character list of the path,
`acc` the suffix collected so far (in order). -/
def extLoop : List Char → List Char → List Char
  | [], _ => []
  | c :: rest, acc =>
    if c = '/' then []
    else if c = '.' then c :: acc
    else extLoop rest (c :: acc)

/-- Go's `filepath.Ext` (used at main.go:280): the suffix beginning at the
final dot in the final element of the path, empty if there is none. -/
def goExt (path : String) : String :=
  String.mk (extLoop path.data.reverse [])

/-- The path string handed to the walk callback: components joined by the
path separator. -/
def pathString (p : Path) : String :=
  String.intercalate "/" p

/-- The pre-hash identity key `path + ":" + funcName` of main.go:331. -/
def chunkKey (path funcName : String) : String :=
  path ++ ":" ++ funcName

/-- `uuid.NewSHA1(uuid.NameSpaceURL, []byte(path+":"+funcName)).String()`
(main.go:331), with the name-based UUID hash abstracted as `hash`. -/
def uniqueID (hash : String → String) (path funcName : String) : String :=
  hash (chunkKey path funcName)

/-- A function/method chunk extracted by the tree-sitter query
(main.go:299-320): captured name, captured declaration text, and the
1-based line span. -/
structure Chunk where
  name : String
  body : String
  startLine : Nat
  endLine : Nat
  deriving Repr, DecidableEq

/-- A Qdrant payload value (string or integer kind). -/
inductive QValue where
  | str (s : String)
  | int (n : Int)
  deriving Repr, DecidableEq

/-- A Qdrant payload: field name to value. -/
abbrev Payload := List (String × QValue)

/-- `payload[k].GetStringValue()`: the protobuf getter is nil-safe and
kind-safe, returning `""` for a missing key or a non-string kind. -/
def getStringValue (pay : Payload) (k : String) : String :=
  match pay.lookup k with
  | some (QValue.str s) => s
  | _ => ""

/-- `payload[k].GetIntegerValue()`: the protobuf getter is nil-safe and
kind-safe, returning `0` for a missing key or a non-integer kind. -/
def getIntegerValue (pay : Payload) (k : String) : Int :=
  match pay.lookup k with
  | some (QValue.int n) => n
  | _ => 0

/-- The payload written by the upsert at main.go:341-347. -/
def upsertPayload (path : String) (c : Chunk) : Payload :=
  [("file_path", QValue.str path),
   ("function", QValue.str c.name),
   ("line_start", QValue.int (c.startLine : Int)),
   ("line_end", QValue.int (c.endLine : Int)),
   ("code_snippet", QValue.str c.body)]

/-- A point as sent to `qClient.Upsert` (main.go:335-350): id, vector,
payload.  Vector components are abstract (`Int` stands in for float32;
nothing in the claims inspects their values). -/
structure QPoint where
  id : String
  vector : List Int
  payload : Payload
  deriving Repr, DecidableEq

/-- The `stats` accumulator of `handleIndexProject` (main.go:245-250). -/
structure Stats where
  files : Nat := 0
  chunks : Nat := 0
  skipped : Nat := 0
  failed : Nat := 0
  deriving Repr, DecidableEq

/-- Pointwise sum of two stats accumulators. -/
def Stats.add (a b : Stats) : Stats :=
  ⟨a.files + b.files, a.chunks + b.chunks, a.skipped + b.skipped, a.failed + b.failed⟩

/-- The external world of one `index_project` run: file contents, the
tree-sitter parse, the Ollama embedding call, the Qdrant upsert outcome,
and the name-based UUID hash. -/
structure IndexEnv where
  readFile : Path → Option String
  parse : String → List Chunk
  embed : String → Option (List Int)
  upsertOk : QPoint → Bool
  hash : String → String

/-- The observable outcome of (part of) a walk: the stats delta, every path
the callback was invoked on, every path passed to `os.ReadFile`, the points
successfully upserted (with the walk path they came from), and the error a
callback propagated, if any (`filepath.WalkDir` aborts on it). -/
structure WalkOut where
  stats : Stats := {}
  calls : List Path := []
  reads : List Path := []
  points : List (Path × QPoint) := []
  err : Option String := none
  deriving Repr

/-- Sequencing of walk steps: a propagated error aborts everything after it
(`filepath.WalkDir` stops and returns the callback's error). -/
def WalkOut.seq (a b : WalkOut) : WalkOut :=
  if a.err.isSome then a
  else ⟨a.stats.add b.stats, a.calls ++ b.calls, a.reads ++ b.reads,
        a.points ++ b.points, b.err⟩

/-- A file system forest in first-child / next-sibling form: `nilF` is the
empty forest, `file n sib` a regular file followed by its siblings,
`dir n readErr cs sib` a directory (whose entry listing fails when
`readErr = true`) with children `cs`, followed by its siblings.
`filepath.WalkDir` visits a single root: a one-node forest. -/
inductive Fs where
  | nilF : Fs
  | file (name : String) (sib : Fs) : Fs
  | dir (name : String) (readErr : Bool) (children : Fs) (sib : Fs) : Fs
  deriving Repr

/-- The chunk loop of main.go:299-358: for each extracted chunk, embed its
body (on failure count `failed` and continue, main.go:323-327), build the
deterministic point id (main.go:331) and the payload, upsert (on failure
count `failed`, on success count `chunks`, main.go:352-357). -/
def processChunks (env : IndexEnv) (p : Path) : List Chunk → WalkOut
  | [] => {}
  | c :: cs =>
    let rest := processChunks env p cs
    match env.embed c.body with
    | none => { rest with stats := (Stats.add ⟨0, 0, 0, 1⟩ rest.stats) }
    | some vec =>
      let pt : QPoint :=
        ⟨uniqueID env.hash (pathString p) c.name, vec, upsertPayload (pathString p) c⟩
      if env.upsertOk pt then
        { rest with stats := Stats.add ⟨0, 1, 0, 0⟩ rest.stats,
                    points := (p, pt) :: rest.points }
      else
        { rest with stats := Stats.add ⟨0, 0, 0, 1⟩ rest.stats }

/-- The callback's file branch (main.go:280-291): a non-`.go` extension is
counted `skipped` without reading; a read failure is counted `failed`; a
successful read counts `files` and runs the chunk loop. -/
def visitFile (env : IndexEnv) (p : Path) : WalkOut :=
  if goExt (pathString p) != ".go" then
    { stats := ⟨0, 0, 1, 0⟩, calls := [p] }
  else
    match env.readFile p with
    | none => { stats := ⟨0, 0, 0, 1⟩, calls := [p], reads := [p] }
    | some content =>
      WalkOut.seq { stats := ⟨1, 0, 0, 0⟩, calls := [p], reads := [p] }
        (processChunks env p (env.parse content))

/-- `filepath.WalkDir` with the callback of main.go:268-361 over a forest.
A directory is visited first with a nil error: a pruned name returns
`filepath.SkipDir` before its entries are read (main.go:274-277), so a
pruned directory contributes only its own callback invocation.  Otherwise a
failing entry listing makes `WalkDir` re-invoke the callback with the
error, which the callback returns (main.go:269-271), aborting the walk. -/
def walkForest (env : IndexEnv) (pfx : Path) : Fs → WalkOut
  | Fs.nilF => {}
  | Fs.file n sib =>
    WalkOut.seq (visitFile env (pfx ++ [n])) (walkForest env pfx sib)
  | Fs.dir n re cs sib =>
    let here : WalkOut :=
      if prunedDir n then { calls := [pfx ++ [n]] }
      else if re then { calls := [pfx ++ [n]], err := some "readdir" }
      else WalkOut.seq { calls := [pfx ++ [n]] } (walkForest env (pfx ++ [n]) cs)
    WalkOut.seq here (walkForest env pfx sib)

/-- The result returned to the MCP dispatcher: a text result or an error
result (`mcp.NewToolResultText` / `mcp.NewToolResultError`). -/
inductive ToolResult where
  | text (s : String)
  | error (s : String)
  deriving Repr, DecidableEq

/-- The report of main.go:363-366. -/
def formatReport (st : Stats) : String :=
  "Indexing Complete.\nFiles Scanned: " ++ toString st.files ++
  "\nFunctions Indexed: " ++ toString st.chunks ++
  "\nFailed/Skipped: " ++ toString st.failed ++ "/" ++ toString st.skipped

/-- `handleIndexProject` (main.go:239-367): a missing `path` argument is an
error result; otherwise the walk runs over the tree rooted at that path and
the report is returned as text — the `filepath.WalkDir` error is discarded
(the `err` assigned at main.go:268 is never checked before main.go:363). -/
def handleIndexProject (env : IndexEnv) (pathArg : Option String) (root : Fs) :
    ToolResult :=
  match pathArg with
  | none => ToolResult.error "Path required"
  | some _ => ToolResult.text (formatReport (walkForest env [] root).stats)

/-- A search hit as returned by `qClient.Query` with payload retrieval: a
similarity score and the stored payload.  The float32 score is modelled in
integer thousandths, which the three-decimal rendering below formats
exactly as `%.3f` does for such values. -/
structure ScoredPoint where
  score : Int
  payload : Payload
  deriving Repr

/-- `%.3f` on a score held in integer thousandths. -/
def formatScore3 (milli : Int) : String :=
  let sign := if milli < 0 then "-" else ""
  let a := milli.natAbs
  let frac := a % 1000
  let pad := if frac < 10 then "00" else if frac < 100 then "0" else ""
  sign ++ toString (a / 1000) ++ "." ++ pad ++ toString frac

/-- One result block of the `codebase_search` handler (main.go:118-126):
note it reads the payload fields `file_path`, `line_number` and
`code_snippet`. -/
def renderPoint (pt : ScoredPoint) : String :=
  "File: " ++ getStringValue pt.payload "file_path" ++
  " (Line: " ++ toString (getIntegerValue pt.payload "line_number") ++
  ")\nScore: " ++ formatScore3 pt.score ++
  "\n```go\n" ++ getStringValue pt.payload "code_snippet" ++ "\n```\n\n---\n"

/-- The `codebase_search` handler (main.go:86-133).  `embedF` is the Ollama
embedding call, `storeQuery` the Qdrant nearest-neighbor query (vector and
limit); a missing `query` argument, an embedding failure and a store
failure each yield an error result; otherwise the result blocks are
concatenated in the store's order and an empty concatenation is replaced by
the sentinel message (main.go:128-130). -/
def codebaseSearch (embedF : String → Except String (List Int))
    (storeQuery : List Int → Nat → Except String (List ScoredPoint))
    (queryArg : Option String) (limitArg : Option Nat) : ToolResult :=
  match queryArg with
  | none => ToolResult.error "Invalid or missing query"
  | some query =>
    let limit := limitArg.getD 20
    match embedF query with
    | Except.error e => ToolResult.error ("Ollama error: " ++ e)
    | Except.ok queryVector =>
      match storeQuery queryVector limit with
      | Except.error e => ToolResult.error ("Qdrant search error: " ++ e)
      | Except.ok searchResults =>
        let responseText :=
          searchResults.foldl (fun acc pt => acc ++ renderPoint pt) ""
        ToolResult.text
          (if responseText = "" then "No relevant code found." else responseText)

/-- The request payload for Ollama (main.go:165-168). -/
structure OllamaEmbedRequest where
  reqModel : String
  input : String
  deriving Repr, DecidableEq

/-- The Ollama response shape (main.go:171-177); `α` is the float64
component type, kept abstract. -/
structure OllamaEmbedResponse (α : Type) where
  respModel : String := ""
  embeddings : List (List α) := []
  totalDuration : Nat := 0
  loadDuration : Nat := 0
  promptEvalCount : Nat := 0

/-- The outcome of the single `http.Post`: a status code and the decoding
outcome of the body. -/
structure OllamaHttpResponse (α : Type) where
  statusCode : Nat
  body : Except String (OllamaEmbedResponse α)

/-- `getOllamaEmbedding` (main.go:180-225): build the `{model, input}`
request, issue one `http.Post` (`post`; the returned list records every
request issued), fail on a transport error, a non-200 status, a decode
failure, or an empty embeddings array; on success return the first
embedding vector with each component converted by `conv` (the
float64 → float32 narrowing of main.go:220-222). -/
def getOllamaEmbedding {α β : Type} (conv : α → β)
    (post : OllamaEmbedRequest → Except String (OllamaHttpResponse α))
    (embeddingModel text : String) :
    Except String (List β) × List OllamaEmbedRequest :=
  let req : OllamaEmbedRequest := ⟨embeddingModel, text⟩
  let result : Except String (List β) :=
    match post req with
    | Except.error e => Except.error ("failed to call Ollama API: " ++ e)
    | Except.ok resp =>
      if resp.statusCode ≠ 200 then
        Except.error ("ollama API returned status: " ++ toString resp.statusCode)
      else
        match resp.body with
        | Except.error e => Except.error ("failed to decode ollama response: " ++ e)
        | Except.ok embedResp =>
          match embedResp.embeddings with
          | [] => Except.error "ollama returned an empty embeddings array"
          | v :: _ => Except.ok (v.map conv)
  (result, [req])

/-- A walk path is clear of pruned directories: every component except the
last (the visited entry itself) is a non-pruned directory name. -/
def okPath : Path → Bool
  | [] => true
  | [_] => true
  | c :: rest => !prunedDir c && okPath rest

/-! ### Helper lemmas -/

theorem okPath_cons_of_ne_nil (c : String) (l : Path) (h : l ≠ []) :
    okPath (c :: l) = (!prunedDir c && okPath l) := by
  cases l with
  | nil => exact absurd rfl h
  | cons x xs => rfl

theorem okPath_append_pruned (q : Path) (c : String) (r : Path)
    (hr : r ≠ []) (hc : prunedDir c = true) :
    okPath (q ++ c :: r) = false := by
  induction q with
  | nil =>
    rw [List.nil_append, okPath_cons_of_ne_nil c r hr, hc]
    rfl
  | cons a q ih =>
    rw [List.cons_append, okPath_cons_of_ne_nil a (q ++ c :: r) (by simp), ih,
      Bool.and_false]

theorem seq_cases (a b : WalkOut) :
    WalkOut.seq a b = a ∨
    WalkOut.seq a b = ⟨a.stats.add b.stats, a.calls ++ b.calls,
      a.reads ++ b.reads, a.points ++ b.points, b.err⟩ := by
  unfold WalkOut.seq
  by_cases h : a.err.isSome <;> simp [h]

theorem seq_of_err_none (a b : WalkOut) (h : a.err = none) :
    WalkOut.seq a b = ⟨a.stats.add b.stats, a.calls ++ b.calls,
      a.reads ++ b.reads, a.points ++ b.points, b.err⟩ := by
  unfold WalkOut.seq
  simp [h]

instance : Inhabited QPoint := ⟨⟨"", [], []⟩⟩

theorem processChunks_cons_embed_fail (env : IndexEnv) (p : Path) (c : Chunk)
    (cs : List Chunk) (h : env.embed c.body = none) :
    processChunks env p (c :: cs) =
      { processChunks env p cs with
        stats := Stats.add ⟨0, 0, 0, 1⟩ (processChunks env p cs).stats } := by
  simp only [processChunks, h]

theorem processChunks_cons_upsert_fail (env : IndexEnv) (p : Path) (c : Chunk)
    (cs : List Chunk) (vec : List Int) (h : env.embed c.body = some vec)
    (hu : env.upsertOk ⟨uniqueID env.hash (pathString p) c.name, vec,
      upsertPayload (pathString p) c⟩ = false) :
    processChunks env p (c :: cs) =
      { processChunks env p cs with
        stats := Stats.add ⟨0, 0, 0, 1⟩ (processChunks env p cs).stats } := by
  simp only [processChunks, h, hu]
  rfl

theorem processChunks_cons_upsert_ok (env : IndexEnv) (p : Path) (c : Chunk)
    (cs : List Chunk) (vec : List Int) (h : env.embed c.body = some vec)
    (hu : env.upsertOk ⟨uniqueID env.hash (pathString p) c.name, vec,
      upsertPayload (pathString p) c⟩ = true) :
    processChunks env p (c :: cs) =
      { processChunks env p cs with
        stats := Stats.add ⟨0, 1, 0, 0⟩ (processChunks env p cs).stats,
        points := (p, ⟨uniqueID env.hash (pathString p) c.name, vec,
          upsertPayload (pathString p) c⟩) :: (processChunks env p cs).points } := by
  simp only [processChunks, h, hu]
  rfl

theorem processChunks_inv (env : IndexEnv) (p : Path) (cs : List Chunk) :
    (processChunks env p cs).calls = [] ∧
    (processChunks env p cs).reads = [] ∧
    (processChunks env p cs).err = none ∧
    (processChunks env p cs).stats.files = 0 ∧
    (processChunks env p cs).stats.skipped = 0 ∧
    (∀ pr ∈ (processChunks env p cs).points, pr.1 = p) := by
  induction cs with
  | nil => exact ⟨rfl, rfl, rfl, rfl, rfl, by intro pr hpr; simp [processChunks] at hpr⟩
  | cons c cs ih =>
    obtain ⟨h1, h2, h3, h4, h5, h6⟩ := ih
    cases henv : env.embed c.body with
    | none =>
      rw [processChunks_cons_embed_fail env p c cs henv]
      exact ⟨h1, h2, h3, by simp [Stats.add, h4], by simp [Stats.add, h5], h6⟩
    | some vec =>
      cases hup : env.upsertOk ⟨uniqueID env.hash (pathString p) c.name, vec,
          upsertPayload (pathString p) c⟩ with
      | false =>
        rw [processChunks_cons_upsert_fail env p c cs vec henv hup]
        exact ⟨h1, h2, h3, by simp [Stats.add, h4], by simp [Stats.add, h5], h6⟩
      | true =>
        rw [processChunks_cons_upsert_ok env p c cs vec henv hup]
        refine ⟨h1, h2, h3, by simp [Stats.add, h4], by simp [Stats.add, h5], ?_⟩
        intro pr hpr
        rcases List.mem_cons.1 hpr with hpr | hpr
        · rw [hpr]
        · exact h6 pr hpr

theorem visitFile_skip (env : IndexEnv) (p : Path)
    (h : goExt (pathString p) ≠ ".go") :
    visitFile env p = { stats := ⟨0, 0, 1, 0⟩, calls := [p] } := by
  have hb : (goExt (pathString p) != ".go") = true := bne_iff_ne.2 h
  simp only [visitFile, hb, if_true]

theorem visitFile_read_fail (env : IndexEnv) (p : Path)
    (h : goExt (pathString p) = ".go") (hr : env.readFile p = none) :
    visitFile env p = { stats := ⟨0, 0, 0, 1⟩, calls := [p], reads := [p] } := by
  have hb : (goExt (pathString p) != ".go") = false := by simp [h]
  simp only [visitFile, hb, Bool.false_eq_true, if_false, hr]

theorem visitFile_read_ok (env : IndexEnv) (p : Path) (content : String)
    (h : goExt (pathString p) = ".go") (hr : env.readFile p = some content) :
    visitFile env p =
      WalkOut.seq { stats := ⟨1, 0, 0, 0⟩, calls := [p], reads := [p] }
        (processChunks env p (env.parse content)) := by
  have hb : (goExt (pathString p) != ".go") = false := by simp [h]
  simp only [visitFile, hb, Bool.false_eq_true, if_false, hr]

theorem visitFile_inv (env : IndexEnv) (p : Path) :
    (visitFile env p).calls = [p] ∧
    (∀ q ∈ (visitFile env p).reads, q = p) ∧
    (∀ pr ∈ (visitFile env p).points, pr.1 = p) ∧
    (visitFile env p).err = none := by
  by_cases hext : goExt (pathString p) = ".go"
  · cases hr : env.readFile p with
    | none =>
      rw [visitFile_read_fail env p hext hr]
      exact ⟨rfl, by intro q hq; simpa using hq, by intro pr hpr; simp at hpr, rfl⟩
    | some content =>
      obtain ⟨h1, h2, h3, _, _, h6⟩ := processChunks_inv env p (env.parse content)
      rw [visitFile_read_ok env p content hext hr,
        seq_of_err_none _ _ (by exact rfl)]
      refine ⟨by simp [h1], by intro q hq; simpa [h2] using hq, ?_, by simp [h3]⟩
      intro pr hpr
      simp only at hpr
      exact h6 pr (by simpa using hpr)
  · rw [visitFile_skip env p hext]
    exact ⟨rfl, by intro q hq; simp at hq, by intro pr hpr; simp at hpr, rfl⟩

theorem walkForest_nilF (env : IndexEnv) (pfx : Path) :
    walkForest env pfx Fs.nilF = {} := rfl

theorem walkForest_file (env : IndexEnv) (pfx : Path) (n : String) (sib : Fs) :
    walkForest env pfx (Fs.file n sib) =
      WalkOut.seq (visitFile env (pfx ++ [n])) (walkForest env pfx sib) := rfl

theorem walkForest_dir_pruned (env : IndexEnv) (pfx : Path) (n : String)
    (re : Bool) (cs sib : Fs) (h : prunedDir n = true) :
    walkForest env pfx (Fs.dir n re cs sib) =
      WalkOut.seq { calls := [pfx ++ [n]] } (walkForest env pfx sib) := by
  simp only [walkForest, h, if_true]

theorem walkForest_dir_readErr (env : IndexEnv) (pfx : Path) (n : String)
    (cs sib : Fs) (h : prunedDir n = false) :
    walkForest env pfx (Fs.dir n true cs sib) =
      WalkOut.seq { calls := [pfx ++ [n]], err := some "readdir" }
        (walkForest env pfx sib) := by
  simp only [walkForest, h, Bool.false_eq_true, if_false, if_true]

theorem walkForest_dir_ok (env : IndexEnv) (pfx : Path) (n : String)
    (cs sib : Fs) (h : prunedDir n = false) :
    walkForest env pfx (Fs.dir n false cs sib) =
      WalkOut.seq
        (WalkOut.seq { calls := [pfx ++ [n]] } (walkForest env (pfx ++ [n]) cs))
        (walkForest env pfx sib) := by
  simp only [walkForest, h, Bool.false_eq_true, if_false]

theorem mem_calls_seq {p : Path} {a b : WalkOut}
    (h : p ∈ (WalkOut.seq a b).calls) : p ∈ a.calls ∨ p ∈ b.calls := by
  rcases seq_cases a b with he | he <;> rw [he] at h
  · exact Or.inl h
  · simpa using List.mem_append.1 h

theorem mem_reads_seq {p : Path} {a b : WalkOut}
    (h : p ∈ (WalkOut.seq a b).reads) : p ∈ a.reads ∨ p ∈ b.reads := by
  rcases seq_cases a b with he | he <;> rw [he] at h
  · exact Or.inl h
  · simpa using List.mem_append.1 h

theorem mem_points_seq {pr : Path × QPoint} {a b : WalkOut}
    (h : pr ∈ (WalkOut.seq a b).points) : pr ∈ a.points ∨ pr ∈ b.points := by
  rcases seq_cases a b with he | he <;> rw [he] at h
  · exact Or.inl h
  · simpa using List.mem_append.1 h

theorem mem_calls_seq_left {p : Path} {a : WalkOut} (b : WalkOut)
    (h : p ∈ a.calls) : p ∈ (WalkOut.seq a b).calls := by
  rcases seq_cases a b with he | he <;> rw [he]
  · exact h
  · simp [h]

/-- Every path the walk callback is invoked on extends the walk prefix by a
nonempty suffix whose non-final components are all non-pruned directory
names. -/
theorem walkForest_calls_shape (env : IndexEnv) (t : Fs) :
    ∀ (pfx p : Path), p ∈ (walkForest env pfx t).calls →
      ∃ s, p = pfx ++ s ∧ s ≠ [] ∧ okPath s = true := by
  induction t with
  | nilF => intro pfx p h; simp [walkForest_nilF] at h
  | file n sib ih =>
    intro pfx p h
    rw [walkForest_file] at h
    rcases mem_calls_seq h with h | h
    · rw [(visitFile_inv env (pfx ++ [n])).1] at h
      simp only [List.mem_singleton] at h
      exact ⟨[n], h, by simp, rfl⟩
    · exact ih pfx p h
  | dir n re cs sib ihcs ihsib =>
    intro pfx p h
    by_cases hn : prunedDir n = true
    · rw [walkForest_dir_pruned env pfx n re cs sib hn] at h
      rcases mem_calls_seq h with h | h
      · simp only [List.mem_singleton] at h
        exact ⟨[n], h, by simp, rfl⟩
      · exact ihsib pfx p h
    · have hn' : prunedDir n = false := by
        cases hpn : prunedDir n
        · rfl
        · exact absurd hpn hn
      cases re with
      | true =>
        rw [walkForest_dir_readErr env pfx n cs sib hn'] at h
        rcases mem_calls_seq h with h | h
        · simp only [List.mem_singleton] at h
          exact ⟨[n], h, by simp, rfl⟩
        · exact ihsib pfx p h
      | false =>
        rw [walkForest_dir_ok env pfx n cs sib hn'] at h
        rcases mem_calls_seq h with h | h
        · rcases mem_calls_seq h with h | h
          · simp only [List.mem_singleton] at h
            exact ⟨[n], h, by simp, rfl⟩
          · obtain ⟨s, hs, hne, hok⟩ := ihcs (pfx ++ [n]) p h
            obtain ⟨x, s', rfl⟩ := List.exists_cons_of_ne_nil hne
            refine ⟨n :: x :: s', by simpa using hs, by simp, ?_⟩
            show (!prunedDir n && okPath (x :: s')) = true
            rw [hn', hok]
            rfl
        · exact ihsib pfx p h

/-- Every read path and every upserted point's path in `o` is among the
paths the callback was invoked on in `o`. -/
def Contained (o : WalkOut) : Prop :=
  (∀ q ∈ o.reads, q ∈ o.calls) ∧ (∀ pr ∈ o.points, pr.1 ∈ o.calls)

theorem seq_contained {a b : WalkOut} (ha : Contained a) (hb : Contained b) :
    Contained (WalkOut.seq a b) := by
  rcases seq_cases a b with he | he <;> rw [he]
  · exact ha
  · constructor
    · intro q hq
      rcases List.mem_append.1 hq with h | h
      · exact List.mem_append.2 (Or.inl (ha.1 q h))
      · exact List.mem_append.2 (Or.inr (hb.1 q h))
    · intro pr hpr
      rcases List.mem_append.1 hpr with h | h
      · exact List.mem_append.2 (Or.inl (ha.2 pr h))
      · exact List.mem_append.2 (Or.inr (hb.2 pr h))

theorem visitFile_contained (env : IndexEnv) (p : Path) :
    Contained (visitFile env p) := by
  obtain ⟨hc, hr, hp, _⟩ := visitFile_inv env p
  constructor
  · intro q hq
    rw [hc, hr q hq]
    simp
  · intro pr hpr
    rw [hc, hp pr hpr]
    simp

theorem walkForest_contained (env : IndexEnv) (t : Fs) :
    ∀ pfx : Path, Contained (walkForest env pfx t) := by
  induction t with
  | nilF =>
    intro pfx
    exact ⟨by intro q hq; simp [walkForest_nilF] at hq,
           by intro pr hpr; simp [walkForest_nilF] at hpr⟩
  | file n sib ih =>
    intro pfx
    rw [walkForest_file]
    exact seq_contained (visitFile_contained env (pfx ++ [n])) (ih pfx)
  | dir n re cs sib ihcs ihsib =>
    intro pfx
    have hbase : Contained ({ calls := [pfx ++ [n]] } : WalkOut) :=
      ⟨by intro q hq; simp at hq, by intro pr hpr; simp at hpr⟩
    have hbaseErr :
        Contained ({ calls := [pfx ++ [n]], err := some "readdir" } : WalkOut) :=
      ⟨by intro q hq; simp at hq, by intro pr hpr; simp at hpr⟩
    by_cases hn : prunedDir n = true
    · rw [walkForest_dir_pruned env pfx n re cs sib hn]
      exact seq_contained hbase (ihsib pfx)
    · have hn' : prunedDir n = false := by
        cases hpn : prunedDir n
        · rfl
        · exact absurd hpn hn
      cases re with
      | true =>
        rw [walkForest_dir_readErr env pfx n cs sib hn']
        exact seq_contained hbaseErr (ihsib pfx)
      | false =>
        rw [walkForest_dir_ok env pfx n cs sib hn']
        exact seq_contained (seq_contained hbase (ihcs (pfx ++ [n]))) (ihsib pfx)

theorem append_last_colon_inj :
    ∀ (a c b d : List Char), ':' ∉ b → ':' ∉ d →
      a ++ ':' :: b = c ++ ':' :: d → a = c ∧ b = d := by
  intro a
  induction a with
  | nil =>
    intro c b d hb hd h
    cases c with
    | nil =>
      simp only [List.nil_append] at h
      exact ⟨rfl, (List.cons.inj h).2⟩
    | cons y c' =>
      simp only [List.nil_append, List.cons_append] at h
      obtain ⟨-, h2⟩ := List.cons.inj h
      exact absurd (h2 ▸ List.mem_append.2 (Or.inr (List.mem_cons_self _ _))) hb
  | cons x a' ih =>
    intro c b d hb hd h
    cases c with
    | nil =>
      simp only [List.nil_append, List.cons_append] at h
      obtain ⟨-, h2⟩ := List.cons.inj h
      exact absurd (h2.symm ▸ List.mem_append.2 (Or.inr (List.mem_cons_self _ _))) hd
    | cons y c' =>
      simp only [List.cons_append] at h
      obtain ⟨h1, h2⟩ := List.cons.inj h
      obtain ⟨h3, h4⟩ := ih c' b d hb hd h2
      exact ⟨by rw [h1, h3], h4⟩

theorem chunkKey_data (p n : String) :
    (chunkKey p n).data = p.data ++ ':' :: n.data := by
  have hcolon : (":" : String).data = [':'] := rfl
  show (p ++ ":" ++ n).data = _
  rw [String.data_append, String.data_append, hcolon, List.append_assoc,
    List.singleton_append]

theorem Stats.add_empty (s : Stats) : s.add {} = s := by
  cases s
  simp [Stats.add]

theorem Stats.empty_add (s : Stats) : Stats.add {} s = s := by
  cases s
  simp [Stats.add]

theorem seq_empty_right (a : WalkOut) (h : a.err = none) :
    WalkOut.seq a {} = a := by
  obtain ⟨st, ca, re, po, er⟩ := a
  simp only at h
  subst h
  rw [seq_of_err_none _ _ rfl]
  simp [Stats.add_empty]

/-! ### Concrete environments and trees for the witnesses -/

/-- A small concrete environment: one readable hidden Go file, a one-chunk
parse, embeddings that fail exactly on the body `"bad"`, and upserts that
always succeed. -/
def envA : IndexEnv :=
  { readFile := fun p => if p = ["src", ".hidden.go"] then some "func Foo() {}" else none,
    parse := fun _ => [⟨"Foo", "func Foo() {}", 7, 9⟩],
    embed := fun s => if s = "bad" then none else some [1, 2],
    upsertOk := fun _ => true,
    hash := fun s => s }

/-- A concrete environment whose reads always fail and whose upserts are
always rejected by the store. -/
def envB : IndexEnv :=
  { readFile := fun _ => none,
    parse := fun _ => [],
    embed := fun s => if s = "bad" then none else some [5],
    upsertOk := fun _ => false,
    hash := fun s => s }

/-- A project tree with a `vendor` directory containing a Go file. -/
def treeB : Fs :=
  Fs.dir "proj" false (Fs.dir "vendor" false (Fs.file "x.go" Fs.nilF) Fs.nilF) Fs.nilF

/-! ### Claims -/

/-- C1: the claim fails on the code.  `handleIndexProject` stores the chunk's
1-based start line under the payload key `line_start` (main.go:344), but the
`codebase_search` handler reads the key `line_number` (main.go:121), which is
never written; the nil-safe protobuf getter then yields `0`, so the rendered
block shows `Line: 0` instead of the stored start line.  Evaluated here at a
function stored with start line 7: the payload holds 7 under `line_start`,
holds nothing (default 0) under `line_number`, and the rendered block is
exactly the `Line: 0` text. -/
theorem search_renders_zero_for_stored_start_line :
    getIntegerValue (upsertPayload "root/a.go" ⟨"Foo", "func Foo() {}", 7, 9⟩)
      "line_start" = 7 ∧
    getIntegerValue (upsertPayload "root/a.go" ⟨"Foo", "func Foo() {}", 7, 9⟩)
      "line_number" = 0 ∧
    renderPoint ⟨987, upsertPayload "root/a.go" ⟨"Foo", "func Foo() {}", 7, 9⟩⟩ =
      "File: root/a.go (Line: 0)\nScore: 0.987\n```go\nfunc Foo() {}\n```\n\n---\n" :=
  ⟨rfl, rfl, rfl⟩

/-- C2 counterexample: the identity key is the bare concatenation
`path + ":" + funcName` (main.go:331), so the two distinct pairs
`("a:b", "c")` and `("a", "b:c")` produce the same key — and hence the same
name-based UUID with certainty, not merely with negligible probability. -/
theorem chunkKey_collision :
    (("a:b", "c") ≠ (("a", "b:c") : String × String)) ∧
    chunkKey "a:b" "c" = chunkKey "a" "b:c" ∧
    uniqueID (fun s => s) "a:b" "c" = uniqueID (fun s => s) "a" "b:c" :=
  ⟨by decide, rfl, rfl⟩

/-- C2 (amended): the identity is a pure function of `(filePath, symbolName)`
— chunks with equal names get equal identities under any hash, regardless of
body and line span — and for pairs whose symbol names contain no `':'`
character (true of every Go identifier) the pre-hash keys are equal exactly
when the pairs are equal, so distinct pairs yield distinct keys and their
SHA1-based identities differ with overwhelming probability. -/
theorem chunk_identity_pure_and_key_injective
    (hash : String → String) (path : String) (c1 c2 : Chunk)
    (hn : c1.name = c2.name)
    (p1 n1 p2 n2 : String) (h1 : ':' ∉ n1.data) (h2 : ':' ∉ n2.data) :
    uniqueID hash path c1.name = uniqueID hash path c2.name ∧
    (chunkKey p1 n1 = chunkKey p2 n2 ↔ (p1 = p2 ∧ n1 = n2)) := by
  constructor
  · rw [hn]
  · constructor
    · intro h
      have hdata : p1.data ++ ':' :: n1.data = p2.data ++ ':' :: n2.data := by
        rw [← chunkKey_data, ← chunkKey_data, h]
      obtain ⟨hp, hnn⟩ := append_last_colon_inj p1.data p2.data n1.data n2.data h1 h2 hdata
      exact ⟨String.ext hp, String.ext hnn⟩
    · rintro ⟨rfl, rfl⟩
      rfl

/-- Witness for C2's amended theorem at concrete chunks and pairs. -/
theorem chunk_identity_pure_and_key_injective_witness :
    uniqueID (fun s => s) "m.go" (Chunk.mk "Foo" "body1" 1 2).name =
      uniqueID (fun s => s) "m.go" (Chunk.mk "Foo" "body2" 5 9).name ∧
    (chunkKey "a.go" "Foo" = chunkKey "b.go" "Bar" ↔
      ("a.go" = "b.go" ∧ "Foo" = "Bar")) :=
  chunk_identity_pure_and_key_injective (fun s => s) "m.go"
    ⟨"Foo", "body1", 1, 2⟩ ⟨"Foo", "body2", 5, 9⟩ rfl
    "a.go" "Foo" "b.go" "Bar" (by decide) (by decide)

/-- C3: failure isolation.  (a) A `.go` file whose read fails contributes one
`failed` count, its path is read but yields no chunks, and the walk of the
remaining siblings continues unchanged after it (the sequencing on the right
carries no error, so nothing after it is cut off).  (b) A chunk whose
embedding call fails adds one `failed` count and the remaining chunks are
processed exactly as before.  (c) A chunk whose store upsert is rejected
likewise adds one `failed` count and processing of the remaining chunks
continues. -/
theorem failure_isolation (env : IndexEnv) :
    (∀ (pfx : Path) (f : String) (sib : Fs),
      goExt (pathString (pfx ++ [f])) = ".go" →
      env.readFile (pfx ++ [f]) = none →
      walkForest env pfx (Fs.file f sib) =
        WalkOut.seq
          { stats := ⟨0, 0, 0, 1⟩, calls := [pfx ++ [f]], reads := [pfx ++ [f]] }
          (walkForest env pfx sib)) ∧
    (∀ (p : Path) (c : Chunk) (cs : List Chunk),
      env.embed c.body = none →
      processChunks env p (c :: cs) =
        { processChunks env p cs with
          stats := Stats.add ⟨0, 0, 0, 1⟩ (processChunks env p cs).stats }) ∧
    (∀ (p : Path) (c : Chunk) (cs : List Chunk) (vec : List Int),
      env.embed c.body = some vec →
      env.upsertOk ⟨uniqueID env.hash (pathString p) c.name, vec,
        upsertPayload (pathString p) c⟩ = false →
      processChunks env p (c :: cs) =
        { processChunks env p cs with
          stats := Stats.add ⟨0, 0, 0, 1⟩ (processChunks env p cs).stats }) := by
  refine ⟨fun pfx f sib hext hr => ?_, fun p c cs h => ?_, fun p c cs vec h hu => ?_⟩
  · rw [walkForest_file, visitFile_read_fail env (pfx ++ [f]) hext hr]
  · exact processChunks_cons_embed_fail env p c cs h
  · exact processChunks_cons_upsert_fail env p c cs vec h hu

/-- Witness for C3 at a concrete environment: an unreadable `a.go`, a chunk
whose body `"bad"` fails to embed, and a chunk whose upsert is rejected. -/
theorem failure_isolation_witness :
    walkForest envB [] (Fs.file "a.go" Fs.nilF) =
      WalkOut.seq
        { stats := ⟨0, 0, 0, 1⟩, calls := [["a.go"]], reads := [["a.go"]] }
        (walkForest envB [] Fs.nilF) ∧
    processChunks envB ["a.go"] [⟨"F", "bad", 1, 2⟩] =
      { processChunks envB ["a.go"] ([] : List Chunk) with
        stats := Stats.add ⟨0, 0, 0, 1⟩
          (processChunks envB ["a.go"] ([] : List Chunk)).stats } ∧
    processChunks envB ["a.go"] [⟨"F", "ok", 1, 2⟩] =
      { processChunks envB ["a.go"] ([] : List Chunk) with
        stats := Stats.add ⟨0, 0, 0, 1⟩
          (processChunks envB ["a.go"] ([] : List Chunk)).stats } :=
  ⟨(failure_isolation envB).1 [] "a.go" Fs.nilF (by decide) rfl,
   (failure_isolation envB).2.1 ["a.go"] ⟨"F", "bad", 1, 2⟩ [] (by decide),
   (failure_isolation envB).2.2 ["a.go"] ⟨"F", "ok", 1, 2⟩ [] [5] (by decide) rfl⟩

/-- C5: with the required `path` argument present, `handleIndexProject`
returns the textual stats report for every environment and every tree —
including trees on which the directory walk aborts with an error, since the
walk's error is discarded before the report is built (main.go:268, 363). -/
theorem indexing_always_reports (env : IndexEnv) (root : Fs) (s : String) :
    handleIndexProject env (some s) root =
      ToolResult.text (formatReport (walkForest env [] root).stats) ∧
    ∀ msg, handleIndexProject env (some s) root ≠ ToolResult.error msg :=
  ⟨rfl, fun _ h => ToolResult.noConfusion h⟩

/-- C6: no path lying strictly beneath a directory whose name is pruned
(hidden marker prefix, `vendor`, `node_modules`) is ever visited by the
walk callback, read, or indexed as the source of an upserted point. -/
theorem walker_excludes_pruned_subtrees (env : IndexEnv) (t : Fs)
    (q : Path) (c : String) (r : Path) (hr : r ≠ []) (hc : prunedDir c = true) :
    (q ++ c :: r) ∉ (walkForest env [] t).calls ∧
    (q ++ c :: r) ∉ (walkForest env [] t).reads ∧
    (∀ pt : QPoint, (q ++ c :: r, pt) ∉ (walkForest env [] t).points) := by
  have hok : ∀ p ∈ (walkForest env [] t).calls, okPath p = true := by
    intro p hp
    obtain ⟨s, hs, -, hokp⟩ := walkForest_calls_shape env t [] p hp
    rw [hs, List.nil_append]
    exact hokp
  have hbad : okPath (q ++ c :: r) = false := okPath_append_pruned q c r hr hc
  have hnc : (q ++ c :: r) ∉ (walkForest env [] t).calls := by
    intro hin
    rw [hok _ hin] at hbad
    exact Bool.noConfusion hbad
  obtain ⟨hreads, hpoints⟩ := walkForest_contained env t []
  exact ⟨hnc, fun hin => hnc (hreads _ hin),
         fun pt hin => hnc (hpoints (q ++ c :: r, pt) hin)⟩

/-- Witness for C6: in a project with a `vendor` directory holding `x.go`,
the file under `vendor` is neither visited nor read nor indexed. -/
theorem walker_excludes_pruned_subtrees_witness :
    (["proj"] ++ "vendor" :: ["x.go"]) ∉ (walkForest envA [] treeB).calls ∧
    (["proj"] ++ "vendor" :: ["x.go"]) ∉ (walkForest envA [] treeB).reads ∧
    (∀ pt : QPoint,
      (["proj"] ++ "vendor" :: ["x.go"], pt) ∉ (walkForest envA [] treeB).points) :=
  walker_excludes_pruned_subtrees envA treeB ["proj"] "vendor" ["x.go"]
    (by decide) (by decide)

/-- C7: a file whose extension is not `.go` contributes exactly one
`skipped` count and one callback visit; it is not read (no read trace) and
yields no points (never reaches the parser); the walk then continues with
the remaining entries. -/
theorem non_go_file_skipped (env : IndexEnv) (pfx : Path) (f : String) (sib : Fs)
    (h : goExt (pathString (pfx ++ [f])) ≠ ".go") :
    walkForest env pfx (Fs.file f sib) =
      WalkOut.seq { stats := ⟨0, 0, 1, 0⟩, calls := [pfx ++ [f]] }
        (walkForest env pfx sib) ∧
    ({ stats := ⟨0, 0, 1, 0⟩, calls := [pfx ++ [f]] } : WalkOut).reads = [] ∧
    ({ stats := ⟨0, 0, 1, 0⟩, calls := [pfx ++ [f]] } : WalkOut).points = [] :=
  ⟨by rw [walkForest_file, visitFile_skip env (pfx ++ [f]) h], rfl, rfl⟩

/-- Witness for C7 at a concrete non-Go file. -/
theorem non_go_file_skipped_witness :
    walkForest envA [] (Fs.file "README.md" Fs.nilF) =
      WalkOut.seq { stats := ⟨0, 0, 1, 0⟩, calls := [["README.md"]] }
        (walkForest envA [] Fs.nilF) ∧
    ({ stats := ⟨0, 0, 1, 0⟩, calls := [["README.md"]] } : WalkOut).reads = [] ∧
    ({ stats := ⟨0, 0, 1, 0⟩, calls := [["README.md"]] } : WalkOut).points = [] :=
  non_go_file_skipped envA [] "README.md" Fs.nilF (by decide)

/-- C8: when the store query succeeds with zero results, `codebase_search`
returns the fixed sentinel text, never the empty string and never an error
result. -/
theorem empty_search_returns_sentinel
    (embedF : String → Except String (List Int))
    (storeQuery : List Int → Nat → Except String (List ScoredPoint))
    (query : String) (limitArg : Option Nat) (v : List Int)
    (hemb : embedF query = Except.ok v)
    (hq : storeQuery v (limitArg.getD 20) = Except.ok []) :
    codebaseSearch embedF storeQuery (some query) limitArg =
      ToolResult.text "No relevant code found." ∧
    (∀ e, codebaseSearch embedF storeQuery (some query) limitArg ≠
      ToolResult.error e) ∧
    codebaseSearch embedF storeQuery (some query) limitArg ≠
      ToolResult.text "" := by
  have h1 : codebaseSearch embedF storeQuery (some query) limitArg =
      ToolResult.text "No relevant code found." := by
    simp only [codebaseSearch, hemb, hq]
    rfl
  refine ⟨h1, fun e he => ?_, fun he => ?_⟩
  · rw [h1] at he
    exact ToolResult.noConfusion he
  · rw [h1] at he
    injection he with he'
    exact absurd he' (by decide)

/-- Witness for C8: a concrete embed success and an empty store answer. -/
theorem empty_search_returns_sentinel_witness :
    codebaseSearch (fun _ => Except.ok ([] : List Int))
      (fun _ _ => Except.ok ([] : List ScoredPoint)) (some "q") none =
      ToolResult.text "No relevant code found." ∧
    (∀ e, codebaseSearch (fun _ => Except.ok ([] : List Int))
      (fun _ _ => Except.ok ([] : List ScoredPoint)) (some "q") none ≠
      ToolResult.error e) ∧
    codebaseSearch (fun _ => Except.ok ([] : List Int))
      (fun _ _ => Except.ok ([] : List ScoredPoint)) (some "q") none ≠
      ToolResult.text "" :=
  empty_search_returns_sentinel (fun _ => Except.ok []) (fun _ _ => Except.ok [])
    "q" none [] rfl rfl

/-- C9: when the root directory's own base name is pruned (hidden marker,
`vendor`, `node_modules`), the callback is invoked once on the root,
returns `SkipDir`, and the run ends with zero files scanned, zero functions
indexed, zero failed and zero skipped — which is exactly the report the
handler returns. -/
theorem pruned_root_reports_zero (env : IndexEnv) (n : String) (re : Bool)
    (cs : Fs) (h : prunedDir n = true) :
    walkForest env [] (Fs.dir n re cs Fs.nilF) = { calls := [[n]] } ∧
    handleIndexProject env (some n) (Fs.dir n re cs Fs.nilF) =
      ToolResult.text
        "Indexing Complete.\nFiles Scanned: 0\nFunctions Indexed: 0\nFailed/Skipped: 0/0" := by
  have h1 : walkForest env [] (Fs.dir n re cs Fs.nilF) = { calls := [[n]] } := by
    rw [walkForest_dir_pruned env [] n re cs Fs.nilF h, walkForest_nilF,
      seq_empty_right _ rfl]
    simp
  have hfmt : formatReport {} =
      "Indexing Complete.\nFiles Scanned: 0\nFunctions Indexed: 0\nFailed/Skipped: 0/0" := by
    decide
  refine ⟨h1, ?_⟩
  show ToolResult.text
      (formatReport (walkForest env [] (Fs.dir n re cs Fs.nilF)).stats) = _
  rw [h1]
  show ToolResult.text (formatReport {}) = _
  rw [hfmt]

/-- Witness for C9: indexing a root named `vendor` containing a Go file. -/
theorem pruned_root_reports_zero_witness :
    walkForest envA [] (Fs.dir "vendor" false (Fs.file "x.go" Fs.nilF) Fs.nilF) =
      { calls := [["vendor"]] } ∧
    handleIndexProject envA (some "vendor")
      (Fs.dir "vendor" false (Fs.file "x.go" Fs.nilF) Fs.nilF) =
      ToolResult.text
        "Indexing Complete.\nFiles Scanned: 0\nFunctions Indexed: 0\nFailed/Skipped: 0/0" :=
  pruned_root_reports_zero envA "vendor" false (Fs.file "x.go" Fs.nilF) (by decide)

/-- C10: hidden-name pruning is a directory-only rule.  A regular file whose
name starts with `'.'` but whose extension is `.go`, sitting in a non-pruned
directory, is read, its content is parsed, and its chunks are processed
exactly like those of any other Go file: the run reads its path, counts one
scanned file and nothing skipped, and the run's points and indexed-chunk
count are precisely those produced from its parsed chunks. -/
theorem hidden_go_file_indexed (env : IndexEnv) (d f content : String)
    (hd : prunedDir d = false) (_hpre : hasDotPrefix f = true)
    (hext : goExt (pathString [d, f]) = ".go")
    (hread : env.readFile [d, f] = some content) :
    [d, f] ∈ (walkForest env []
      (Fs.dir d false (Fs.file f Fs.nilF) Fs.nilF)).reads ∧
    (walkForest env [] (Fs.dir d false (Fs.file f Fs.nilF) Fs.nilF)).stats.files = 1 ∧
    (walkForest env [] (Fs.dir d false (Fs.file f Fs.nilF) Fs.nilF)).stats.skipped = 0 ∧
    (walkForest env [] (Fs.dir d false (Fs.file f Fs.nilF) Fs.nilF)).points =
      (processChunks env [d, f] (env.parse content)).points ∧
    (walkForest env [] (Fs.dir d false (Fs.file f Fs.nilF) Fs.nilF)).stats.chunks =
      (processChunks env [d, f] (env.parse content)).stats.chunks := by
  obtain ⟨hc0, hr0, he0, hf0, hs0, -⟩ :=
    processChunks_inv env [d, f] (env.parse content)
  rw [walkForest_dir_ok env [] d (Fs.file f Fs.nilF) Fs.nilF hd, walkForest_file,
    walkForest_nilF]
  simp only [List.nil_append, List.cons_append]
  rw [visitFile_read_ok env [d, f] content hext hread]
  refine ⟨?_, ?_, ?_, ?_, ?_⟩ <;>
    simp [WalkOut.seq, walkForest_nilF, he0, hc0, hr0, hf0, hs0, Stats.add]

/-- Witness for C10: the hidden file `.hidden.go` under `src` is read,
parsed and indexed under `envA`. -/
theorem hidden_go_file_indexed_witness :
    ["src", ".hidden.go"] ∈ (walkForest envA []
      (Fs.dir "src" false (Fs.file ".hidden.go" Fs.nilF) Fs.nilF)).reads ∧
    (walkForest envA []
      (Fs.dir "src" false (Fs.file ".hidden.go" Fs.nilF) Fs.nilF)).stats.files = 1 ∧
    (walkForest envA []
      (Fs.dir "src" false (Fs.file ".hidden.go" Fs.nilF) Fs.nilF)).stats.skipped = 0 ∧
    (walkForest envA []
      (Fs.dir "src" false (Fs.file ".hidden.go" Fs.nilF) Fs.nilF)).points =
      (processChunks envA ["src", ".hidden.go"]
        (envA.parse "func Foo() {}")).points ∧
    (walkForest envA []
      (Fs.dir "src" false (Fs.file ".hidden.go" Fs.nilF) Fs.nilF)).stats.chunks =
      (processChunks envA ["src", ".hidden.go"]
        (envA.parse "func Foo() {}")).stats.chunks :=
  hidden_go_file_indexed envA "src" ".hidden.go" "func Foo() {}"
    (by decide) (by decide) (by decide) rfl

/-- C4: `getOllamaEmbedding` issues exactly one request — the `{model,
input}` object for its input string — and (a) fails when the transport call
fails, (b) fails when the response status is not 200, (c) fails when the
decoded response has zero embedding vectors, and (d) on success returns the
first embedding vector of the response with every component converted by
the float64 → float32 narrowing `conv`. -/
theorem getOllamaEmbedding_spec {α β : Type} (conv : α → β)
    (post : OllamaEmbedRequest → Except String (OllamaHttpResponse α))
    (m text : String) :
    (getOllamaEmbedding conv post m text).2 = [⟨m, text⟩] ∧
    (∀ e, post ⟨m, text⟩ = Except.error e →
      (getOllamaEmbedding conv post m text).1 =
        Except.error ("failed to call Ollama API: " ++ e)) ∧
    (∀ resp, post ⟨m, text⟩ = Except.ok resp → resp.statusCode ≠ 200 →
      (getOllamaEmbedding conv post m text).1 =
        Except.error ("ollama API returned status: " ++ toString resp.statusCode)) ∧
    (∀ resp er, post ⟨m, text⟩ = Except.ok resp → resp.statusCode = 200 →
      resp.body = Except.ok er → er.embeddings = [] →
      (getOllamaEmbedding conv post m text).1 =
        Except.error "ollama returned an empty embeddings array") ∧
    (∀ resp er v rest, post ⟨m, text⟩ = Except.ok resp → resp.statusCode = 200 →
      resp.body = Except.ok er → er.embeddings = v :: rest →
      (getOllamaEmbedding conv post m text).1 = Except.ok (v.map conv)) := by
  refine ⟨rfl, fun e he => ?_, fun resp hp hs => ?_,
    fun resp er hp hs hb hemb => ?_, fun resp er v rest hp hs hb hemb => ?_⟩
  · simp [getOllamaEmbedding, he]
  · simp [getOllamaEmbedding, hp, hs]
  · simp [getOllamaEmbedding, hp, hs, hb, hemb]
  · simp [getOllamaEmbedding, hp, hs, hb, hemb]

/-- Witness for C4: one concrete instance of each branch — a transport
failure, a 500 status, an empty embeddings array, and a success returning
the first vector — plus the single-request trace. -/
theorem getOllamaEmbedding_spec_witness :
    (getOllamaEmbedding (fun x : Int => x)
      (fun _ => Except.ok ⟨200, Except.ok { embeddings := [[3, 4]] }⟩) "m" "t").2 =
      [⟨"m", "t"⟩] ∧
    (getOllamaEmbedding (fun x : Int => x)
      (fun _ => Except.error "conn") "m" "t").1 =
      Except.error "failed to call Ollama API: conn" ∧
    (getOllamaEmbedding (fun x : Int => x)
      (fun _ => Except.ok ⟨500, Except.error "x"⟩) "m" "t").1 =
      Except.error ("ollama API returned status: " ++ toString (500 : Nat)) ∧
    (getOllamaEmbedding (fun x : Int => x)
      (fun _ => Except.ok ⟨200, Except.ok {}⟩) "m" "t").1 =
      Except.error "ollama returned an empty embeddings array" ∧
    (getOllamaEmbedding (fun x : Int => x)
      (fun _ => Except.ok ⟨200, Except.ok { embeddings := [[3, 4]] }⟩) "m" "t").1 =
      Except.ok [3, 4] :=
  ⟨(getOllamaEmbedding_spec (fun x : Int => x)
      (fun _ => Except.ok ⟨200, Except.ok { embeddings := [[3, 4]] }⟩) "m" "t").1,
   (getOllamaEmbedding_spec (fun x : Int => x)
      (fun _ => Except.error "conn") "m" "t").2.1 "conn" rfl,
   (getOllamaEmbedding_spec (fun x : Int => x)
      (fun _ => Except.ok ⟨500, Except.error "x"⟩) "m" "t").2.2.1
      ⟨500, Except.error "x"⟩ rfl (by decide),
   (getOllamaEmbedding_spec (fun x : Int => x)
      (fun _ => Except.ok ⟨200, Except.ok {}⟩) "m" "t").2.2.2.1
      ⟨200, Except.ok {}⟩ {} rfl rfl rfl rfl,
   (getOllamaEmbedding_spec (fun x : Int => x)
      (fun _ => Except.ok ⟨200, Except.ok { embeddings := [[3, 4]] }⟩) "m" "t").2.2.2.2
      ⟨200, Except.ok { embeddings := [[3, 4]] }⟩ { embeddings := [[3, 4]] }
      [3, 4] [] rfl rfl rfl rfl⟩

end McpGoIndexer
